import Mathlib

/-!
Verification development for the ConahGPT retrieval bot (`app.py`).

Strings from the Python source are modelled as lists of characters
(`Str := List Char`), so that Python `len`, slicing, concatenation and
joining correspond to `List.length`, `List.take`/`drop`, `++` and explicit
join functions.  Machine integers do not occur (all counts are small
non-negative Python ints, modelled as `Nat`; the one negated score in the
file-prefilter heap is modelled as `Int`).  Python exceptions that escape a
function are modelled with `Except String`.
-/

set_option maxRecDepth 10000
set_option autoImplicit false

abbrev Str := List Char

deriving instance DecidableEq for Except

/-- The non-breaking-space character ` ` handled specially by `norm`. -/
def nbspChar : Char := Char.ofNat 160

/-- Characters matched by Python's `\s` / `str.isspace` / no-arg `str.split`
on the character repertoire this program manipulates (ASCII whitespace,
the C0 separators, NEL, NBSP and the Unicode space block). -/
def pyIsSpace (c : Char) : Bool :=
  let n := c.toNat
  (9 ≤ n && n ≤ 13) || n == 32 || (28 ≤ n && n ≤ 31) || n == 133 || n == 160 ||
  n == 0x1680 || (0x2000 ≤ n && n ≤ 0x200a) || n == 0x2028 || n == 0x2029 ||
  n == 0x202f || n == 0x205f || n == 0x3000

/-- Scanner for `re.sub(r"\s+", " ", t)`: the flag records whether the
previous character was whitespace (i.e. we are inside a run that has already
emitted its single replacement space). -/
def collapseWsAux : Bool → Str → Str
  | _, [] => []
  | inRun, c :: cs =>
    if pyIsSpace c then
      if inRun then collapseWsAux true cs else ' ' :: collapseWsAux true cs
    else c :: collapseWsAux false cs

/-- Python `re.sub(r"\s+", " ", t)`: every maximal whitespace run is replaced by a
single space. -/
def collapseWs (l : Str) : Str := collapseWsAux false l

/-- Removal of trailing Python whitespace (the right half of `str.strip()`). -/
def stripEnd (l : Str) : Str := (l.reverse.dropWhile pyIsSpace).reverse

/-- Python `str.strip()` with no arguments. -/
def pyStrip (l : Str) : Str := stripEnd (l.dropWhile pyIsSpace)

/-- Function `norm` from `app.py`:
```
def norm(t: str) -> str:
    t = t.replace(" ", " ")
    t = re.sub(r"\s+", " ", t).strip()
    return t
``` -/
def norm (t : Str) : Str :=
  pyStrip (collapseWs (t.map (fun c => if c = nbspChar then ' ' else c)))

/-- The characters of Python `string.punctuation`
(ASCII 33–47, 58–64, 91–96, 123–126). -/
def pyIsPunct (c : Char) : Bool :=
  let n := c.toNat
  (33 ≤ n && n ≤ 47) || (58 ≤ n && n ≤ 64) || (91 ≤ n && n ≤ 96) ||
  (123 ≤ n && n ≤ 126)

/-- Scanner for Python's no-argument `str.split()`; the accumulator holds
the current word, reversed. -/
def pySplitAux : Str → Str → List Str
  | acc, [] => if acc.isEmpty then [] else [acc.reverse]
  | acc, c :: cs =>
    if pyIsSpace c then
      if acc.isEmpty then pySplitAux [] cs else acc.reverse :: pySplitAux [] cs
    else pySplitAux (c :: acc) cs

/-- Python no-argument `str.split()`: split on whitespace runs, dropping
empty pieces. -/
def pySplit (l : Str) : List Str := pySplitAux [] l

/-- The `STOPWORDS` set of `app.py`, built exactly as in the source by
splitting one literal string. -/
def STOPWORDS : List Str :=
  pySplit ("a an and are as at be by for from has have if in into is it its of on or that the their to was were will with you your".data)

/-- Function `toks` from `app.py`: lowercase, map every punctuation character to a
space, split on whitespace, and drop stopwords. -/
def toks (s : Str) : List Str :=
  (pySplit ((s.map Char.toLower).map (fun c => if pyIsPunct c then ' ' else c))).filter
    (fun w => !w.isEmpty && !(STOPWORDS.contains w))

/-- Function `overlap` from `app.py`: `len(set(query_tokens) & set(toks(text)))`,
the number of distinct query tokens that also occur in the text tokens. -/
def overlap (query_tokens : List Str) (text : Str) : Nat :=
  ((query_tokens.dedup).filter (fun w => (toks text).contains w)).length

example : toks "What is the capital of France?".data =
    ["what".data, "capital".data, "france".data] := by decide
example : overlap (toks "What is the capital of France?".data)
    "zebra stripes say hello".data = 0 := by decide
example : norm "  a \t b  ".data = "a b".data := by decide

/-! ## Data model: file descriptors, document contents and chunks -/

/-- A file record as returned by the Drive listing:
`fields="files(id,name,mimeType)"`. -/
structure FileD where
  id : Str
  name : Str
  mimeType : Str
deriving DecidableEq, Repr, Inhabited

def MIME_DOC : Str := "application/vnd.google-apps.document".data
def MIME_SHEET : Str := "application/vnd.google-apps.spreadsheet".data
def MIME_PDF : Str := "application/pdf".data

/-- The parts of a Google-Docs paragraph object that `iter_gdoc_chunks`
reads: the `textRun` content of each element (absent text runs contribute
`""`) and `paragraphStyle.namedStyleType` (absent style contributes `""`). -/
structure GPara where
  elements : List Str
  namedStyleType : Str
deriving DecidableEq, Repr

/-- One entry of `doc["body"]["content"]`: either a paragraph or some other
structural element (which the reader skips via `"paragraph" not in c`). -/
inductive GContent where
  | para (p : GPara)
  | other
deriving DecidableEq, Repr

/-- A chunk dictionary as yielded by the three readers.  The `meta` dict is
modelled by one optional field per key ever stored in it (`section` for
docs, `page` for PDFs, `block` for sheets). -/
structure Chunk where
  file_id : Str
  file_name : Str
  mime : Str
  link : Str
  meta_section : Option Str := none
  meta_page : Option Nat := none
  meta_block : Option Nat := none
  text : Str
deriving DecidableEq, Repr

/-- Decimal rendering of a `Nat`, as Python's f-string interpolation does. -/
def natStr (n : Nat) : Str := (toString n).data

/-! ## Document readers (`iter_gdoc_chunks`, `iter_pdf_chunks`,
`iter_sheet_chunks`).

Each Python generator wraps its body in `try/except` around external API
calls; the embedding takes the already-fetched API payload as an argument
and models the successful pass over it (an exception merely truncates the
yielded sequence and is logged). -/

/-- Python `"".join(e.get("textRun", {}).get("content", "") for e in elements)`. -/
def joinedText (elements : List Str) : Str := elements.flatten

/-- The answer-paragraph peek of `iter_gdoc_chunks`: looks at `content[i+1]`;
if it is a paragraph whose style is not a heading, takes its stripped text,
else the answer is the empty string. -/
def gdocPeekAnswer : List GContent → Str
  | GContent.para nxt :: _ =>
    if "HEADING_".data.isPrefixOf nxt.namedStyleType then []
    else pyStrip (joinedText nxt.elements)
  | _ => []

/-- The loop body of `iter_gdoc_chunks`, processing `content[i:]` with the
running `current_section`. -/
def gdocLoop (file_id name : Str) : Str → List GContent → List Chunk
  | _, [] => []
  | sect, GContent.other :: rest => gdocLoop file_id name sect rest
  | sect, GContent.para p :: rest =>
    let text := pyStrip (joinedText p.elements)
    if text.isEmpty then gdocLoop file_id name sect rest
    else if "HEADING_".data.isPrefixOf p.namedStyleType then
      gdocLoop file_id name text rest
    else
      let text2 :=
        if text.getLast? = some '?' then
          "Question: ".data ++ text ++ " Answer: ".data ++ gdocPeekAnswer rest
        else text
      { file_id := file_id, file_name := name, mime := "gdoc".data,
        link := "https://docs.google.com/document/d/".data ++ file_id ++ "/edit".data,
        meta_section := some sect, text := norm text2 } ::
        gdocLoop file_id name sect rest

/-- Reader `iter_gdoc_chunks` over the fetched document body content. -/
def iter_gdoc_chunks (file_id name : Str) (content : List GContent) : List Chunk :=
  gdocLoop file_id name "General".data content

/-- The per-page loop of `iter_pdf_chunks` (`page_num` starts at 1). -/
def pdfLoop (file_id name : Str) : Nat → List Str → List Chunk
  | _, [] => []
  | page_num, pageText :: rest =>
    let txt := norm pageText
    if txt.isEmpty then pdfLoop file_id name (page_num + 1) rest
    else
      { file_id := file_id, file_name := name, mime := "pdf".data,
        link := "https://drive.google.com/file/d/".data ++ file_id ++
          "/preview#page=".data ++ natStr page_num,
        meta_page := some page_num, text := txt } ::
        pdfLoop file_id name (page_num + 1) rest

/-- Reader `iter_pdf_chunks` over the extracted page texts. -/
def iter_pdf_chunks (file_id name : Str) (pages : List Str) : List Chunk :=
  pdfLoop file_id name 1 pages

/-- Python `sep.join(pieces)` for Python lists of strings. -/
def joinWith (sep : Str) : List Str → Str
  | [] => []
  | [x] => x
  | x :: xs => x ++ sep ++ joinWith sep xs

def mkSheetChunk (file_id name : Str) (idx : Nat) (block : List Str) : Chunk :=
  { file_id := file_id, file_name := name, mime := "gsheet".data,
    link := "https://docs.google.com/spreadsheets/d/".data ++ file_id ++ "/edit".data,
    meta_block := some idx, text := norm (joinWith [' '] block) }

/-- The row loop of `iter_sheet_chunks`: nonempty normalized rows are
appended to `block`; every 20 accumulated rows are flushed as one chunk,
and a final partial block is flushed at the end. -/
def sheetLoop (file_id name : Str) : List Str → Nat → List (List Str) → List Chunk
  | block, idx, [] => if block.isEmpty then [] else [mkSheetChunk file_id name idx block]
  | block, idx, r :: rest =>
    let line := norm (joinWith " | ".data r)
    let block2 := if line.isEmpty then block else block ++ [line]
    if 20 ≤ block2.length then
      mkSheetChunk file_id name idx block2 :: sheetLoop file_id name [] (idx + 1) rest
    else sheetLoop file_id name block2 idx rest

/-- Reader `iter_sheet_chunks` over `sheet1.get_all_values()`. -/
def iter_sheet_chunks (file_id name : Str) (rows : List (List Str)) : List Chunk :=
  sheetLoop file_id name [] 1 rows

/-! ## The filename-prefilter heap.

`retrieve_top_chunks` builds `scored = [(-overlap(qtok, f["name"]), f) ...]`
and runs `heapq.heapify` followed by `heappop`s on it.  These heap
operations compare tuples with `<`; when two scores are equal, Python falls
through to comparing the file dicts, which raises `TypeError`.  The CPython
`heapq` algorithms are therefore transcribed operationally, with every
comparison in `Except`.  The loops of `_siftup`/`_siftdown` are driven by a
fuel argument that is always sufficient (`_siftdown` decreases `pos` every
iteration, `_siftup` increases it, both bounded by the heap size). -/

abbrev HItem := Int × FileD

def junkItem : HItem := (0, default)

/-- Python `<` on the prefilter tuples `(-overlap, file_dict)`: integer
comparison, falling through to a `dict < dict` `TypeError` on ties between
distinct dicts. -/
def pyTupLt (a b : HItem) : Except String Bool :=
  if a.1 < b.1 then .ok true
  else if b.1 < a.1 then .ok false
  else if a.2 = b.2 then .ok false
  else .error "TypeError: '<' not supported between instances of 'dict' and 'dict'"

/-- The `while pos > startpos` loop of CPython `heapq._siftdown`. -/
def siftdownLoop (startpos : Nat) (newitem : HItem) :
    Nat → Nat → List HItem → Except String (List HItem)
  | 0, pos, heap => .ok (heap.set pos newitem)
  | fuel + 1, pos, heap =>
    if startpos < pos then
      let parentpos := (pos - 1) / 2
      let parent := heap.getD parentpos junkItem
      match pyTupLt newitem parent with
      | .error e => .error e
      | .ok true => siftdownLoop startpos newitem fuel parentpos (heap.set pos parent)
      | .ok false => .ok (heap.set pos newitem)
    else .ok (heap.set pos newitem)

/-- CPython `heapq._siftdown(heap, startpos, pos)`. -/
def siftdown (heap : List HItem) (startpos pos : Nat) : Except String (List HItem) :=
  siftdownLoop startpos (heap.getD pos junkItem) (pos + 1) pos heap

/-- The `while childpos < endpos` loop of CPython `heapq._siftup`. -/
def siftupLoop (endpos startpos : Nat) (newitem : HItem) :
    Nat → Nat → List HItem → Except String (List HItem)
  | 0, pos, heap => siftdown (heap.set pos newitem) startpos pos
  | fuel + 1, pos, heap =>
    let childpos := 2 * pos + 1
    if childpos < endpos then
      let rightpos := childpos + 1
      let cpE : Except String Nat :=
        if rightpos < endpos then
          match pyTupLt (heap.getD childpos junkItem) (heap.getD rightpos junkItem) with
          | .error e => .error e
          | .ok b => .ok (if b then childpos else rightpos)
        else .ok childpos
      match cpE with
      | .error e => .error e
      | .ok cp => siftupLoop endpos startpos newitem fuel cp (heap.set pos (heap.getD cp junkItem))
    else siftdown (heap.set pos newitem) startpos pos

/-- CPython `heapq._siftup(heap, pos)`. -/
def siftup (heap : List HItem) (pos : Nat) : Except String (List HItem) :=
  siftupLoop heap.length pos (heap.getD pos junkItem) (heap.length + 1) pos heap

/-- The `for i in reversed(range(n//2))` loop of CPython `heapq.heapify`,
counting down from `n//2`. -/
def heapifyGo : Nat → List HItem → Except String (List HItem)
  | 0, heap => .ok heap
  | i + 1, heap =>
    match siftup heap i with
    | .error e => .error e
    | .ok heap2 => heapifyGo i heap2

/-- CPython `heapq.heapify`. -/
def pyHeapify (x : List HItem) : Except String (List HItem) :=
  heapifyGo (x.length / 2) x

/-- CPython `heapq.heappop`: pop the last element; if the heap is still
nonempty, move it to the root and sift up, returning the old root. -/
def pyHeappop (heap : List HItem) : Except String (HItem × List HItem) :=
  match heap.getLast? with
  | none => .error "IndexError: index out of range"
  | some lastelt =>
    match heap.dropLast with
    | [] => .ok (lastelt, [])
    | r0 :: rtail =>
      match siftup (lastelt :: rtail) 0 with
      | .error e => .error e
      | .ok heap2 => .ok (r0, heap2)

/-- Python `[heapq.heappop(scored)[1] for _ in range(n)]`. -/
def popChosen : Nat → List HItem → Except String (List FileD)
  | 0, _ => .ok []
  | n + 1, heap =>
    match pyHeappop heap with
    | .error e => .error e
    | .ok (item, heap2) =>
      match popChosen n heap2 with
      | .error e => .error e
      | .ok fs => .ok (item.2 :: fs)

/-- The filename prefilter of `retrieve_top_chunks`: score every file by
name overlap, heapify on the negated score, pop `min(max_files, len)`
files. -/
def prefilterChosen (qtok : List Str) (max_files : Nat) (files : List FileD) :
    Except String (List FileD) :=
  let scored := files.map (fun f => ((-(overlap qtok f.name : Int) : Int), f))
  match pyHeapify scored with
  | .error e => .error e
  | .ok h => popChosen (min max_files files.length) h

/-! ## The top-k chunk heap.

The chunk heap holds tuples `(sc, tiebreak, ch)` whose `tiebreak`
components are pairwise distinct, so every Python comparison on them is
resolved by the `(sc, tiebreak)` prefix: the heap behaves as an exact
priority queue and never compares the chunk dicts.  It is therefore
modelled at the multiset level: the list `heap` stands for the heap
array's contents, `heap[0]` is its unique lexicographic minimum, and
`heapreplace` removes that minimum and inserts the new tuple. -/

structure Scored where
  sc : Nat
  tie : Nat
  ch : Chunk
deriving DecidableEq, Repr

/-- Lexicographic `<` on the `(sc, tiebreak)` prefix of a heap tuple. -/
def lexLt (a b : Scored) : Bool := a.sc < b.sc || (a.sc == b.sc && a.tie < b.tie)

/-- Reading `heap[0]`: the minimum tuple of the heap (`none` on an empty heap,
where Python raises `IndexError`). -/
def heapMin : List Scored → Option Scored
  | [] => none
  | x :: xs => some (xs.foldl (fun m y => if lexLt y m then y else m) x)

/-- The heap state: contents plus the running `tiebreak` counter. -/
abbrev HeapSt := List Scored × Nat

/-- The `push` closure of `retrieve_top_chunks`:
score the chunk; push while the heap has fewer than `top_k` entries, else
replace the minimum iff the new score is strictly greater than `heap[0][0]`
(`heap[0]` on an empty heap — only reachable with `top_k = 0` — raises
`IndexError`); always advance `tiebreak`.  (`sc` is a set cardinality, so
the defensive `if sc < 0: sc = 0` of the source is a no-op and `sc : Nat`.) -/
def pushE (top_k : Nat) (qtok : List Str) (st : HeapSt) (ch : Chunk) :
    Except String HeapSt :=
  let heap := st.1
  let tiebreak := st.2
  let sc := overlap qtok ch.text
  if heap.length < top_k then .ok (⟨sc, tiebreak, ch⟩ :: heap, tiebreak + 1)
  else
    match heapMin heap with
    | none => .error "IndexError: list index out of range"
    | some m =>
      if m.sc < sc then .ok (⟨sc, tiebreak, ch⟩ :: heap.erase m, tiebreak + 1)
      else .ok (heap, tiebreak + 1)

/-! ## `retrieve_top_chunks` -/

/-- The external world `retrieve_top_chunks` reads: the Drive listing and,
per file id, the payloads the three readers consume. -/
structure Env where
  files : List FileD
  gdocContent : Str → List GContent
  pdfPages : Str → List Str
  sheetRows : Str → List (List Str)

/-- The reader-dispatch of the retrieval loop
(`gen = iter_gdoc_chunks(...) if mt == MIME_DOC else ...`); `none` models
`gen = None` for unsupported mime types (`if not gen: continue`). -/
def chunksOfFile (env : Env) (f : FileD) : Option (List Chunk) :=
  if f.mimeType = MIME_DOC then some (iter_gdoc_chunks f.id f.name (env.gdocContent f.id))
  else if f.mimeType = MIME_PDF then some (iter_pdf_chunks f.id f.name (env.pdfPages f.id))
  else if f.mimeType = MIME_SHEET then some (iter_sheet_chunks f.id f.name (env.sheetRows f.id))
  else none

/-- Loop `for ch in gen: push(ch)`. -/
def pushAll (top_k : Nat) (qtok : List Str) : HeapSt → List Chunk → Except String HeapSt
  | st, [] => .ok st
  | st, c :: cs =>
    match pushE top_k qtok st c with
    | .error e => .error e
    | .ok st2 => pushAll top_k qtok st2 cs

/-- The main retrieval loop over the chosen files. -/
def mainLoop (env : Env) (top_k : Nat) (qtok : List Str) :
    HeapSt → List FileD → Except String HeapSt
  | st, [] => .ok st
  | st, f :: fs =>
    match chunksOfFile env f with
    | none => mainLoop env top_k qtok st fs
    | some cs =>
      match pushAll top_k qtok st cs with
      | .error e => .error e
      | .ok st2 => mainLoop env top_k qtok st2 fs

/-- The no-overlap fallback: for the first five chosen files, push the
first chunk the file's reader yields, if any (`next(gen)` /
`StopIteration`). -/
def fallbackLoop (env : Env) (top_k : Nat) (qtok : List Str) :
    HeapSt → List FileD → Except String HeapSt
  | st, [] => .ok st
  | st, f :: fs =>
    match chunksOfFile env f with
    | none => fallbackLoop env top_k qtok st fs
    | some [] => fallbackLoop env top_k qtok st fs
    | some (c :: _) =>
      match pushE top_k qtok st c with
      | .error e => .error e
      | .ok st2 => fallbackLoop env top_k qtok st2 fs

/-- Python `sorted(heap, key=lambda x: (-x[0], x[1]))` — ascending in the key,
i.e. score descending with ties by insertion order.  Implemented as an
insertion sort; the key is injective on the heap (tiebreaks are distinct),
so any correct sort produces Python's output. -/
def rankLe (a b : Scored) : Bool := b.sc < a.sc || (a.sc == b.sc && a.tie ≤ b.tie)

def insertRank (a : Scored) : List Scored → List Scored
  | [] => [a]
  | b :: bs => if rankLe a b then a :: b :: bs else b :: insertRank a bs

def sortRank : List Scored → List Scored
  | [] => []
  | a :: as => insertRank a (sortRank as)

/-- Python `"\n".join(ctx)`. -/
def joinNl : List Str → Str
  | [] => []
  | [x] => x
  | x :: xs => x ++ ['\n'] ++ joinNl xs

/-- One context part: `f"Source: {ch['file_name']}\nContent: {ch['text']}\n"`. -/
def ctxPart (ch : Chunk) : Str :=
  "Source: ".data ++ ch.file_name ++ "\nContent: ".data ++ ch.text ++ ['\n']

/-- The context-accumulation loop of `retrieve_top_chunks`: append parts in
rank order while the running total stays within the 8000-character budget,
`break` (dropping all remaining chunks) as soon as a part would exceed it. -/
def collectParts : List Chunk → Nat → List Str
  | [], _ => []
  | ch :: rest, total =>
    let part := ctxPart ch
    if 8000 < total + part.length then []
    else part :: collectParts rest (total + part.length)

/-- The compact-context construction: `"\n".join(ctx)`. -/
def buildContext (top : List Chunk) : Str := joinNl (collectParts top 0)

/-- The body of `retrieve_top_chunks` after the (nonempty) listing:
prefilter, heap-select, fallback, sort, build context. -/
def retrieveCore (env : Env) (qtok : List Str) (max_files top_k : Nat)
    (files : List FileD) : Except String (Str × List Chunk) :=
  match prefilterChosen qtok max_files files with
  | .error e => .error e
  | .ok chosen =>
    match mainLoop env top_k qtok ([], 0) chosen with
    | .error e => .error e
    | .ok st =>
      match (if st.1.isEmpty then fallbackLoop env top_k qtok st chosen else .ok st) with
      | .error e => .error e
      | .ok st2 =>
        if st2.1.isEmpty then .ok ([], [])
        else
          let top := (sortRank st2.1).map Scored.ch
          .ok (buildContext top, top)

/-- Model of `list_files(DRIVE_CONTAINER_ID)`: returns the listing the
document store currently holds, paired with the number of listing passes
this invocation performs (always one — the function is called afresh and
unconditionally at the top of every `retrieve_top_chunks` call). -/
def list_filesT (env : Env) : List FileD × Nat := (env.files, 1)

/-- Function `retrieve_top_chunks(question, max_files, top_k)`, additionally
reporting how many document-store listings the call performed. -/
def retrieve_top_chunksT (env : Env) (question : Str) (max_files top_k : Nat) :
    Except String (Str × List Chunk) × Nat :=
  let listed := list_filesT env
  if listed.1.isEmpty then (.ok ([], []), listed.2)
  else (retrieveCore env (toks question) max_files top_k listed.1, listed.2)

/-- Function `retrieve_top_chunks` proper (its returned `(context, chunks)` pair). -/
def retrieve_top_chunks (env : Env) (question : Str) (max_files top_k : Nat) :
    Except String (Str × List Chunk) :=
  (retrieve_top_chunksT env question max_files top_k).1

/-! ## Citation formatting and the answer pipeline -/

/-- Python rendering of `meta.get("page")` / `meta.get("block")` inside an
f-string: the decimal value, or `None` when the key is absent. -/
def optNatStr : Option Nat → Str
  | none => "None".data
  | some n => natStr n

/-- The locator-specific phrase `citation_for` renders for each mime type
(empty for the generic fallback, which carries no locator). -/
def locator_phrase (ch : Chunk) : Str :=
  if ch.mime = "pdf".data then "on page ".data ++ optNatStr ch.meta_page
  else if ch.mime = "gdoc".data then
    "in section \"".data ++ ch.meta_section.getD "General".data ++ "\"".data
  else if ch.mime = "gsheet".data then "in data block ".data ++ optNatStr ch.meta_block
  else []

/-- Function `citation_for` from `app.py`. -/
def citation_for (ch : Chunk) : Str :=
  if ch.mime = "pdf".data then
    "(Source: [".data ++ ch.file_name ++ "](".data ++ ch.link ++ "), ".data ++
      ("on page ".data ++ optNatStr ch.meta_page) ++ ")".data
  else if ch.mime = "gdoc".data then
    "(Source: [".data ++ ch.file_name ++ "](".data ++ ch.link ++ "), ".data ++
      ("in section \"".data ++ ch.meta_section.getD "General".data ++ "\"".data) ++ ")".data
  else if ch.mime = "gsheet".data then
    "(Source: [".data ++ ch.file_name ++ "](".data ++ ch.link ++ "), ".data ++
      ("in data block ".data ++ optNatStr ch.meta_block) ++ ")".data
  else "(Source: [".data ++ ch.file_name ++ "](".data ++ ch.link ++ ")".data ++ ")".data

/-- The fixed refusal sentence of `answer` (and of the system prompt). -/
def refusal : Str :=
  "I cannot answer this question as the information is not in the provided documents.".data

/-- The prompt `answer` sends to the model. -/
def answerPrompt (context user_q : Str) : Str :=
  "CONTEXT:\n".data ++ context ++ "\n\nQUESTION: ".data ++ user_q ++ "\n\nANSWER:".data

/-- Function `answer(user_q)` from `app.py`.  The hosted model is the function
`gen`: `.error ()` models `gemini.generate_content` raising, `.ok t`
models a response whose `.text` is `t` (`norm` and the empty/refusal
checks are then applied as in the source).  Exceptions escaping
`retrieve_top_chunks` propagate (there is no `try` around it). -/
def answer (env : Env) (gen : Str → Except Unit Str) (user_q : Str) :
    Except String Str :=
  match retrieve_top_chunks env user_q 200 3 with
  | .error e => .error e
  | .ok (context, chunks) =>
    if context.isEmpty || chunks.isEmpty then .ok refusal
    else
      match gen (answerPrompt context user_q) with
      | .error _ => .ok refusal
      | .ok raw =>
        let text := norm raw
        if text.isEmpty || "i cannot answer".data.isPrefixOf (text.map Char.toLower) then
          .ok refusal
        else
          match chunks with
          | [] => .error "IndexError: list index out of range"
          | best :: _ => .ok (text ++ [' '] ++ citation_for best)

/-! ## The Slack mention handler -/

/-- Scanner for `re.sub(r"<@[^>]+>", "", raw_text)`: at each position, a
match requires `<@`, one or more non-`>` characters, then `>`; on failure
the scan advances one character.  Driven by fuel (one unit per consumed
character suffices). -/
def removeMentionsAux : Nat → Str → Str
  | 0, l => l
  | fuel + 1, l =>
    match l with
    | [] => []
    | '<' :: '@' :: rest =>
      let ys := rest.takeWhile (fun c => c != '>')
      (match rest.dropWhile (fun c => c != '>') with
      | '>' :: tail =>
        if ys.isEmpty then '<' :: removeMentionsAux fuel ('@' :: rest)
        else removeMentionsAux fuel tail
      | _ => '<' :: removeMentionsAux fuel ('@' :: rest))
    | c :: rest => c :: removeMentionsAux fuel rest

def removeMentions (l : Str) : Str := removeMentionsAux (l.length + 1) l

/-- The outward-visible actions of `handle_mention`. -/
inductive BotEffect where
  | invokeAnswer (q : Str)
  | postMessage (channel text : Str)
deriving DecidableEq, Repr

/-- Function `handle_mention(channel_id, raw_text)`: strip the mention markup and
surrounding whitespace; if nothing remains, return at once (no pipeline
call, no message); otherwise run `answer` and post the reply (an exception
escaping `answer` kills the daemon thread before any post). -/
def handle_mention (env : Env) (gen : Str → Except Unit Str)
    (channel_id raw_text : Str) : List BotEffect :=
  let q := pyStrip (removeMentions raw_text)
  if q.isEmpty then []
  else
    BotEffect.invokeAnswer q ::
      (match answer env gen q with
      | .ok reply => [BotEffect.postMessage channel_id reply]
      | .error _ => [])

/-! ## Concrete instances used by the claim theorems -/

/-- An environment with an empty document collection. -/
def emptyEnvA : Env :=
  { files := [], gdocContent := fun _ => [], pdfPages := fun _ => [], sheetRows := fun _ => [] }

def emptyEnvB : Env :=
  { files := [], gdocContent := fun _ => [], pdfPages := fun _ => [], sheetRows := fun _ => [] }

def emptyEnvC : Env :=
  { files := [], gdocContent := fun _ => [], pdfPages := fun _ => [], sheetRows := fun _ => [] }

def emptyEnvD : Env :=
  { files := [], gdocContent := fun _ => [], pdfPages := fun _ => [], sheetRows := fun _ => [] }

def genNone : Str → Except Unit Str := fun _ => .error ()

/-- C1: one Google Doc whose single paragraph has no token in common with
the query `"What is the capital of France?"`. -/
def c1env : Env :=
  { files := [{ id := "f1".data, name := "HandbookZ".data, mimeType := MIME_DOC }],
    gdocContent := fun _ =>
      [GContent.para { elements := ["zebra stripes say hello".data], namedStyleType := [] }],
    pdfPages := fun _ => [], sheetRows := fun _ => [] }

def c1q : Str := "What is the capital of France?".data

/-- A model reply for the C1 scenario (any non-refusing nonempty text). -/
def c1gen : Str → Except Unit Str := fun _ => .ok "Paris is the capital of France.".data

def c1chunk : Chunk :=
  { file_id := "f1".data, file_name := "HandbookZ".data, mime := "gdoc".data,
    link := "https://docs.google.com/document/d/f1/edit".data,
    meta_section := some "General".data, text := "zebra stripes say hello".data }

def c1ctx : Str := "Source: HandbookZ\nContent: zebra stripes say hello\n".data

/-- C2: one Google Doc (one source name) with two above-zero-scoring
paragraphs. -/
def c2env : Env :=
  { files := [{ id := "d1".data, name := "DocA".data, mimeType := MIME_DOC }],
    gdocContent := fun _ =>
      [GContent.para { elements := ["alpha beta".data], namedStyleType := [] },
       GContent.para { elements := ["alpha gamma".data], namedStyleType := [] }],
    pdfPages := fun _ => [], sheetRows := fun _ => [] }

def c2chunkA : Chunk :=
  { file_id := "d1".data, file_name := "DocA".data, mime := "gdoc".data,
    link := "https://docs.google.com/document/d/d1/edit".data,
    meta_section := some "General".data, text := "alpha beta".data }

def c2chunkB : Chunk :=
  { file_id := "d1".data, file_name := "DocA".data, mime := "gdoc".data,
    link := "https://docs.google.com/document/d/d1/edit".data,
    meta_section := some "General".data, text := "alpha gamma".data }

def c2ctx : Str :=
  "Source: DocA\nContent: alpha beta\n\nSource: DocA\nContent: alpha gamma\n".data

/-- C2 (amended scenario): same source, higher-scoring chunk first. -/
def c2benv : Env :=
  { files := [{ id := "d1".data, name := "DocA".data, mimeType := MIME_DOC }],
    gdocContent := fun _ =>
      [GContent.para { elements := ["alpha beta gamma".data], namedStyleType := [] },
       GContent.para { elements := ["alpha zzz".data], namedStyleType := [] }],
    pdfPages := fun _ => [], sheetRows := fun _ => [] }

/-- C2 (amended scenario): same source, higher-scoring chunk second. -/
def c2cenv : Env :=
  { files := [{ id := "d1".data, name := "DocA".data, mimeType := MIME_DOC }],
    gdocContent := fun _ =>
      [GContent.para { elements := ["alpha zzz".data], namedStyleType := [] },
       GContent.para { elements := ["alpha beta gamma".data], namedStyleType := [] }],
    pdfPages := fun _ => [], sheetRows := fun _ => [] }

def c2hiChunk : Chunk :=
  { file_id := "d1".data, file_name := "DocA".data, mime := "gdoc".data,
    link := "https://docs.google.com/document/d/d1/edit".data,
    meta_section := some "General".data, text := "alpha beta gamma".data }

def c2hiCtx : Str := "Source: DocA\nContent: alpha beta gamma\n".data

/-- C3: total listing calls across two back-to-back `retrieve_top_chunks`
calls (defaults `max_files=200`, `top_k=3`), with no time dependence. -/
def listing_calls_two (env : Env) (q : Str) : Nat :=
  (retrieve_top_chunksT env q 200 3).2 + (retrieve_top_chunksT env q 200 3).2

def c3env : Env :=
  { files := [{ id := "f1".data, name := "Handbook".data, mimeType := MIME_DOC }],
    gdocContent := fun _ =>
      [GContent.para { elements := ["hello there".data], namedStyleType := [] }],
    pdfPages := fun _ => [], sheetRows := fun _ => [] }

/-- C4: a PDF chunk whose text shares no character with the citation
template. -/
def c4ex : Chunk :=
  { file_id := "p1".data, file_name := "Doc".data, mime := "pdf".data,
    link := "http://x".data, meta_page := some 3, text := "zz xx yy vv".data }

def c4cite : Str := "(Source: [Doc](http://x), on page 3)".data

/-- C4 witness chunk (a Google-Docs chunk). -/
def c4w : Chunk :=
  { file_id := "g".data, file_name := "N".data, mime := "gdoc".data,
    link := "L".data, meta_section := some "Intro".data, text := "hello".data }

/-- C5: a chunk whose context part is exactly 4000 characters
(`len("Source: ") + 0 + len("\nContent: ") + 3981 + 1`). -/
def c5chunk : Chunk :=
  { file_id := [], file_name := [], mime := "pdf".data, link := [],
    meta_page := some 1, text := List.replicate 3981 'z' }

/-- C8: concrete reader inputs and the chunks they yield. -/
def c8gContent : List GContent :=
  [GContent.para { elements := ["Hello world".data], namedStyleType := [] }]

def c8gChunk : Chunk :=
  { file_id := "g1".data, file_name := "G".data, mime := "gdoc".data,
    link := "https://docs.google.com/document/d/g1/edit".data,
    meta_section := some "General".data, text := "Hello world".data }

def c8pChunk : Chunk :=
  { file_id := "p1".data, file_name := "P".data, mime := "pdf".data,
    link := "https://drive.google.com/file/d/p1/preview#page=1".data,
    meta_page := some 1, text := "Page one text".data }

def c8sChunk : Chunk :=
  { file_id := "s1".data, file_name := "S".data, mime := "gsheet".data,
    link := "https://docs.google.com/spreadsheets/d/s1/edit".data,
    meta_block := some 1, text := "alpha | beta".data }

/-- C10: a mention whose text is empty once the `<@...>` markup and
whitespace are stripped. -/
def c10raw : Str := "<@U12345>   ".data

/-- Total length of a list of context parts. -/
def sumLens (ps : List Str) : Nat := (ps.map List.length).sum

/-! # Lemmas

## Whitespace normalization: structure of `norm` output -/

/-- The output shape `norm` guarantees: all whitespace is the plain space
character, no two adjacent whitespace characters, and no whitespace at
either end. -/
def NormedStr (u : Str) : Prop :=
  (∀ c ∈ u, pyIsSpace c → c = ' ') ∧
  u.Chain' (fun a b => ¬(pyIsSpace a ∧ pyIsSpace b)) ∧
  (∀ c, u.head? = some c → ¬pyIsSpace c) ∧
  (∀ c, u.getLast? = some c → ¬pyIsSpace c)

lemma collapseWsAux_nil (b : Bool) : collapseWsAux b [] = [] := by
  cases b <;> rfl

lemma collapseWsAux_cons_space {d : Char} (b : Bool) (ds : Str) (hd : pyIsSpace d) :
    collapseWsAux b (d :: ds) =
      (if b then collapseWsAux true ds else ' ' :: collapseWsAux true ds) := by
  cases b <;> simp [collapseWsAux, hd]

lemma collapseWsAux_cons_nonspace {d : Char} (b : Bool) (ds : Str) (hd : ¬pyIsSpace d) :
    collapseWsAux b (d :: ds) = d :: collapseWsAux false ds := by
  cases b <;> simp [collapseWsAux, hd]

lemma mem_collapseWsAux_space {b : Bool} {l : Str} {c : Char}
    (h : c ∈ collapseWsAux b l) (hs : pyIsSpace c) : c = ' ' := by
  induction l generalizing b with
  | nil => rw [collapseWsAux_nil] at h; simp at h
  | cons d ds ih =>
    by_cases hd : pyIsSpace d
    · rw [collapseWsAux_cons_space b ds hd] at h
      cases b with
      | true => exact ih (by simpa using h)
      | false =>
        rcases List.mem_cons.1 (by simpa using h) with h1 | h2
        · exact h1
        · exact ih h2
    · rw [collapseWsAux_cons_nonspace b ds hd] at h
      rcases List.mem_cons.1 h with h1 | h2
      · exact absurd (h1 ▸ hs) hd
      · exact ih h2

lemma head_collapseWsAux_true {l : Str} {c : Char}
    (h : (collapseWsAux true l).head? = some c) : ¬pyIsSpace c := by
  induction l with
  | nil => rw [collapseWsAux_nil] at h; simp at h
  | cons d ds ih =>
    by_cases hd : pyIsSpace d
    · rw [collapseWsAux_cons_space true ds hd] at h
      exact ih (by simpa using h)
    · rw [collapseWsAux_cons_nonspace true ds hd] at h
      simp only [List.head?_cons, Option.some.injEq] at h
      subst h; exact hd

lemma chain'_collapseWsAux (b : Bool) (l : Str) :
    (collapseWsAux b l).Chain' (fun a b => ¬(pyIsSpace a ∧ pyIsSpace b)) := by
  induction l generalizing b with
  | nil => rw [collapseWsAux_nil]; exact List.chain'_nil
  | cons d ds ih =>
    by_cases hd : pyIsSpace d
    · rw [collapseWsAux_cons_space b ds hd]
      cases b with
      | true => simpa using ih true
      | false =>
        simp only [if_neg Bool.false_ne_true]
        refine List.chain'_cons'.2 ⟨?_, ih true⟩
        intro y hy
        exact fun hc => head_collapseWsAux_true hy hc.2
    · rw [collapseWsAux_cons_nonspace b ds hd]
      refine List.chain'_cons'.2 ⟨?_, ih false⟩
      intro y _
      exact fun hc => hd hc.1

lemma head_dropWhile_not {p : Char → Bool} {l : Str} {c : Char}
    (h : (l.dropWhile p).head? = some c) : ¬p c := by
  induction l with
  | nil => simp at h
  | cons d ds ih =>
    by_cases hd : p d
    · rw [List.dropWhile_cons_of_pos hd] at h; exact ih h
    · rw [List.dropWhile_cons_of_neg hd] at h
      simp only [List.head?_cons, Option.some.injEq] at h
      subst h; simpa using hd

lemma stripEnd_pref (l : Str) : stripEnd l <+: l := by
  have h := List.dropWhile_suffix (l := l.reverse) pyIsSpace
  have := List.reverse_prefix.2 h
  simpa [stripEnd] using this

lemma mem_of_mem_stripEnd {l : Str} {c : Char} (h : c ∈ stripEnd l) : c ∈ l :=
  (stripEnd_pref l).subset h

lemma mem_of_mem_pyStrip {l : Str} {c : Char} (h : c ∈ pyStrip l) : c ∈ l :=
  (List.dropWhile_suffix pyIsSpace).subset (mem_of_mem_stripEnd h)

lemma head_of_pref {p l : Str} (hp : p <+: l) {c : Char}
    (h : p.head? = some c) : l.head? = some c := by
  rcases hp with ⟨t, rfl⟩
  cases p with
  | nil => simp at h
  | cons d ds => simpa using h

lemma head_pyStrip_not_space {l : Str} {c : Char}
    (h : (pyStrip l).head? = some c) : ¬pyIsSpace c :=
  head_dropWhile_not (head_of_pref (stripEnd_pref (l.dropWhile pyIsSpace)) h)

lemma getLast_pyStrip_not_space {l : Str} {c : Char}
    (h : (pyStrip l).getLast? = some c) : ¬pyIsSpace c := by
  unfold pyStrip stripEnd at h
  rw [List.getLast?_reverse] at h
  exact head_dropWhile_not h

lemma chain'_pyStrip {l : Str} (h : l.Chain' (fun a b => ¬(pyIsSpace a ∧ pyIsSpace b))) :
    (pyStrip l).Chain' (fun a b => ¬(pyIsSpace a ∧ pyIsSpace b)) := by
  have h1 : (l.dropWhile pyIsSpace).Chain' (fun a b => ¬(pyIsSpace a ∧ pyIsSpace b)) :=
    h.suffix (List.dropWhile_suffix pyIsSpace)
  have h2 : ((l.dropWhile pyIsSpace).reverse).Chain'
      (fun a b => ¬(pyIsSpace a ∧ pyIsSpace b)) := by
    rw [List.chain'_reverse]
    exact h1.imp (fun a b hab => fun hc => hab ⟨hc.2, hc.1⟩)
  have h3 : (((l.dropWhile pyIsSpace).reverse).dropWhile pyIsSpace).Chain'
      (fun a b => ¬(pyIsSpace a ∧ pyIsSpace b)) :=
    h2.suffix (List.dropWhile_suffix pyIsSpace)
  unfold pyStrip stripEnd
  rw [List.chain'_reverse]
  exact h3.imp (fun a b hab => fun hc => hab ⟨hc.2, hc.1⟩)

/-- Unfolding equation for `norm` (stated to avoid the name clash with
`Norm.norm` in tactic positions). -/
lemma norm_def (t : Str) :
    norm t = pyStrip (collapseWsAux false (t.map (fun c => if c = nbspChar then ' ' else c))) :=
  rfl

/-- The `norm` output is always in normalized shape. -/
lemma normedStr_norm (t : Str) : NormedStr (norm t) := by
  rw [norm_def]
  refine ⟨?_, ?_, ?_, ?_⟩
  · intro c hc hs
    exact mem_collapseWsAux_space (mem_of_mem_pyStrip hc) hs
  · exact chain'_pyStrip (chain'_collapseWsAux false _)
  · intro c hc; exact head_pyStrip_not_space hc
  · intro c hc; exact getLast_pyStrip_not_space hc

lemma collapseWsAux_true_eq_false {l : Str}
    (h : ∀ c, l.head? = some c → ¬pyIsSpace c) :
    collapseWsAux true l = collapseWsAux false l := by
  cases l with
  | nil => rfl
  | cons d ds =>
    have : ¬pyIsSpace d := h d rfl
    simp [collapseWsAux, this]

lemma collapseWsAux_eq_self {u : Str}
    (hsp : ∀ c ∈ u, pyIsSpace c → c = ' ')
    (hch : u.Chain' (fun a b => ¬(pyIsSpace a ∧ pyIsSpace b))) :
    collapseWsAux false u = u := by
  induction u with
  | nil => rfl
  | cons d ds ih =>
    have hch' := (List.chain'_cons'.1 hch)
    have ihds : collapseWsAux false ds = ds :=
      ih (fun c hc => hsp c (List.mem_cons_of_mem _ hc)) hch'.2
    by_cases hd : pyIsSpace d
    · have hd' : d = ' ' := hsp d (by simp) hd
      have hds : ∀ c, ds.head? = some c → ¬pyIsSpace c := by
        intro c hc
        exact fun hcs => (hch'.1 c hc) ⟨hd, hcs⟩
      rw [collapseWsAux_cons_space false ds hd, if_neg Bool.false_ne_true,
        collapseWsAux_true_eq_false hds, ihds, hd']
    · rw [collapseWsAux_cons_nonspace false ds hd, ihds]

lemma dropWhile_eq_self_of_head {p : Char → Bool} {l : Str}
    (h : ∀ c, l.head? = some c → ¬p c) : l.dropWhile p = l := by
  cases l with
  | nil => rfl
  | cons d ds =>
    have : ¬p d := h d rfl
    simp [List.dropWhile_cons, this]

lemma pyStrip_eq_self {u : Str}
    (hh : ∀ c, u.head? = some c → ¬pyIsSpace c)
    (hl : ∀ c, u.getLast? = some c → ¬pyIsSpace c) : pyStrip u = u := by
  unfold pyStrip stripEnd
  rw [dropWhile_eq_self_of_head hh]
  rw [dropWhile_eq_self_of_head (by simpa using hl), List.reverse_reverse]

/-- The scanner `collapseWsAux` preserves the number of non-whitespace characters. -/
lemma countP_collapseWsAux (b : Bool) (l : Str) :
    (collapseWsAux b l).countP (fun c => !pyIsSpace c) =
      l.countP (fun c => !pyIsSpace c) := by
  induction l generalizing b with
  | nil => rw [collapseWsAux_nil]
  | cons d ds ih =>
    by_cases hd : pyIsSpace d
    · rw [collapseWsAux_cons_space b ds hd]
      cases b with
      | true => simp [List.countP_cons, hd, ih true]
      | false =>
        simp [List.countP_cons, hd, ih true, (by decide : pyIsSpace ' ' = true)]
    · rw [collapseWsAux_cons_nonspace b ds hd]
      simp [List.countP_cons, hd, ih false]

lemma countP_dropWhile_space (l : Str) :
    (l.dropWhile pyIsSpace).countP (fun c => !pyIsSpace c) =
      l.countP (fun c => !pyIsSpace c) := by
  conv_rhs => rw [← List.takeWhile_append_dropWhile (p := pyIsSpace) (l := l)]
  rw [List.countP_append]
  have : (l.takeWhile pyIsSpace).countP (fun c => !pyIsSpace c) = 0 := by
    rw [List.countP_eq_zero]
    intro a ha
    simpa using List.mem_takeWhile_imp ha
  omega

/-- Stripping preserves the number of non-whitespace characters. -/
lemma countP_pyStrip (l : Str) :
    (pyStrip l).countP (fun c => !pyIsSpace c) =
      l.countP (fun c => !pyIsSpace c) := by
  unfold pyStrip stripEnd
  rw [List.countP_reverse, countP_dropWhile_space, List.countP_reverse,
    countP_dropWhile_space]

/-- Normalization preserves the number of non-whitespace characters. -/
lemma countP_norm (t : Str) :
    (norm t).countP (fun c => !pyIsSpace c) = t.countP (fun c => !pyIsSpace c) := by
  rw [norm_def, countP_pyStrip, countP_collapseWsAux, List.countP_map]
  refine List.countP_congr ?_
  intro c _
  constructor
  · intro h
    by_cases hn : c = nbspChar
    · exfalso
      simp only [Function.comp, hn] at h
      revert h; decide
    · simpa [Function.comp, hn] using h
  · intro h
    have hn : c ≠ nbspChar := by
      intro he
      rw [he] at h
      revert h; decide
    simpa [Function.comp, hn] using h

/-- A string containing at least one non-whitespace character normalizes
to a nonempty string. -/
lemma norm_ne_nil_of_nonspace {t : Str} {c : Char} (hc : c ∈ t)
    (hs : ¬pyIsSpace c) : norm t ≠ [] := by
  intro he
  have h1 : 0 < t.countP (fun c => !pyIsSpace c) :=
    List.countP_pos_iff.2 ⟨c, hc, by simpa using hs⟩
  rw [← countP_norm, he] at h1
  simp at h1

/-- A nonempty `norm` output contains a non-whitespace character (its
head). -/
lemma norm_has_nonspace_of_ne_nil {t : Str} (h : norm t ≠ []) :
    ∃ c ∈ norm t, ¬pyIsSpace c := by
  rcases hn : norm t with _ | ⟨d, ds⟩
  · exact absurd hn h
  · refine ⟨d, by simp [hn], ?_⟩
    have := (normedStr_norm t).2.2.1
    exact this d (by rw [hn]; rfl)

/-- The `pyStrip` output, when nonempty, contains a non-whitespace character. -/
lemma pyStrip_has_nonspace {l : Str} (h : pyStrip l ≠ []) :
    ∃ c ∈ pyStrip l, ¬pyIsSpace c := by
  rcases hn : pyStrip l with _ | ⟨d, ds⟩
  · exact absurd hn h
  · exact ⟨d, by simp [hn], head_pyStrip_not_space (by rw [hn]; rfl)⟩

/-! ## The chunk heap: size and order lemmas -/

lemma heapMin_mem {l : List Scored} {m : Scored} (h : heapMin l = some m) : m ∈ l := by
  cases l with
  | nil => simp [heapMin] at h
  | cons x xs =>
    simp only [heapMin, Option.some.injEq] at h
    subst h
    have aux : ∀ (ys : List Scored) (a : Scored),
        ys.foldl (fun m y => if lexLt y m then y else m) a = a ∨
          ys.foldl (fun m y => if lexLt y m then y else m) a ∈ ys := by
      intro ys
      induction ys with
      | nil => intro a; left; rfl
      | cons y ys ih =>
        intro a
        rcases ih (if lexLt y a then y else a) with h1 | h2
        · rw [List.foldl_cons, h1]
          by_cases hy : lexLt y a
          · right; simp [hy]
          · left; simp [hy]
        · right; exact List.mem_cons_of_mem _ h2
    rcases aux xs x with h1 | h2
    · rw [h1]; exact List.mem_cons_self x xs
    · exact List.mem_cons_of_mem _ h2

/-- The `push` closure keeps the heap within `top_k` entries. -/
lemma pushE_length {top_k : Nat} {qtok : List Str} {st st2 : HeapSt} {ch : Chunk}
    (h : pushE top_k qtok st ch = .ok st2) (hb : st.1.length ≤ top_k) :
    st2.1.length ≤ top_k := by
  unfold pushE at h
  by_cases hlt : st.1.length < top_k
  · rw [if_pos hlt] at h
    cases h
    simpa using hlt
  · rw [if_neg hlt] at h
    cases hm : heapMin st.1 with
    | none => rw [hm] at h; cases h
    | some m =>
      rw [hm] at h
      dsimp only at h
      by_cases hsc : m.sc < overlap qtok ch.text
      · rw [if_pos hsc] at h
        cases h
        have hmem := heapMin_mem hm
        have : (st.1.erase m).length = st.1.length - 1 := List.length_erase_of_mem hmem
        have hpos : 0 < st.1.length := List.length_pos.2 (List.ne_nil_of_mem hmem)
        simp only [List.length_cons, this]
        omega
      · rw [if_neg hsc] at h
        cases h
        exact hb

lemma pushAll_length {top_k : Nat} {qtok : List Str} {cs : List Chunk}
    {st st2 : HeapSt} (h : pushAll top_k qtok st cs = .ok st2)
    (hb : st.1.length ≤ top_k) : st2.1.length ≤ top_k := by
  induction cs generalizing st with
  | nil => cases h; exact hb
  | cons c cs ih =>
    unfold pushAll at h
    cases hp : pushE top_k qtok st c with
    | error e => rw [hp] at h; cases h
    | ok st1 =>
      rw [hp] at h
      exact ih h (pushE_length hp hb)

lemma mainLoop_length {env : Env} {top_k : Nat} {qtok : List Str}
    {fs : List FileD} {st st2 : HeapSt}
    (h : mainLoop env top_k qtok st fs = .ok st2) (hb : st.1.length ≤ top_k) :
    st2.1.length ≤ top_k := by
  induction fs generalizing st with
  | nil => cases h; exact hb
  | cons f fs ih =>
    unfold mainLoop at h
    cases hc : chunksOfFile env f with
    | none => rw [hc] at h; exact ih h hb
    | some cs =>
      rw [hc] at h
      dsimp only at h
      cases hp : pushAll top_k qtok st cs with
      | error e => rw [hp] at h; cases h
      | ok st1 =>
        rw [hp] at h
        exact ih h (pushAll_length hp hb)

lemma fallbackLoop_length {env : Env} {top_k : Nat} {qtok : List Str}
    {fs : List FileD} {st st2 : HeapSt}
    (h : fallbackLoop env top_k qtok st fs = .ok st2) (hb : st.1.length ≤ top_k) :
    st2.1.length ≤ top_k := by
  induction fs generalizing st with
  | nil => cases h; exact hb
  | cons f fs ih =>
    unfold fallbackLoop at h
    cases hc : chunksOfFile env f with
    | none => rw [hc] at h; exact ih h hb
    | some cs =>
      rw [hc] at h
      cases cs with
      | nil => exact ih h hb
      | cons c _ =>
        dsimp only at h
        cases hp : pushE top_k qtok st c with
        | error e => rw [hp] at h; cases h
        | ok st1 =>
          rw [hp] at h
          exact ih h (pushE_length hp hb)

/-! ## The final sort: length and sortedness -/

lemma insertRank_cons (a b : Scored) (bs : List Scored) :
    insertRank a (b :: bs) = if rankLe a b then a :: b :: bs else b :: insertRank a bs :=
  rfl

lemma length_insertRank (a : Scored) (l : List Scored) :
    (insertRank a l).length = l.length + 1 := by
  induction l with
  | nil => rfl
  | cons b bs ih =>
    rw [insertRank_cons]
    by_cases h : rankLe a b
    · simp [h]
    · simp [h, ih]

lemma length_sortRank (l : List Scored) : (sortRank l).length = l.length := by
  induction l with
  | nil => rfl
  | cons a as ih => simp [sortRank, length_insertRank, ih]

lemma rankLe_total (a b : Scored) : rankLe a b ∨ rankLe b a := by
  unfold rankLe
  by_cases h1 : a.sc < b.sc
  · right; simp [h1]
  · by_cases h2 : b.sc < a.sc
    · left; simp [h2]
    · have he : a.sc = b.sc := by omega
      by_cases h3 : a.tie ≤ b.tie
      · left; simp [he, h3]
      · right
        simp only [Bool.or_eq_true, Bool.and_eq_true, decide_eq_true_eq, beq_iff_eq]
        right
        exact ⟨he.symm, by omega⟩

lemma insertRank_head_cases (a : Scored) (l : List Scored) :
    insertRank a l = a :: l ∨
      ∃ c cs, l = c :: cs ∧ insertRank a l = c :: insertRank a cs := by
  cases l with
  | nil => left; rfl
  | cons b bs =>
    by_cases h : rankLe a b
    · left; rw [insertRank_cons, if_pos h]
    · right
      refine ⟨b, bs, rfl, ?_⟩
      rw [insertRank_cons, if_neg h]

lemma chain'_insertRank {a : Scored} {l : List Scored}
    (h : l.Chain' (fun x y => rankLe x y = true)) :
    (insertRank a l).Chain' (fun x y => rankLe x y = true) := by
  induction l with
  | nil => simp [insertRank]
  | cons b bs ih =>
    rw [insertRank_cons]
    by_cases hab : rankLe a b
    · rw [if_pos hab]
      exact List.chain'_cons'.2 ⟨fun y hy => by simp at hy; rw [← hy]; exact hab, h⟩
    · rw [if_neg hab]
      have hba : rankLe b a := (rankLe_total a b).resolve_left (by simpa using hab)
      have hch := List.chain'_cons'.1 h
      refine List.chain'_cons'.2 ⟨?_, ih hch.2⟩
      intro y hy
      rcases insertRank_head_cases a bs with h1 | ⟨c, cs, hbs, h2⟩
      · rw [h1] at hy
        simp only [List.head?_cons, Option.mem_def, Option.some.injEq] at hy
        rw [← hy]; exact hba
      · rw [h2] at hy
        simp only [List.head?_cons, Option.mem_def, Option.some.injEq] at hy
        rw [← hy]
        exact hch.1 c (by rw [hbs]; rfl)

lemma chain'_sortRank (l : List Scored) :
    (sortRank l).Chain' (fun x y => rankLe x y = true) := by
  induction l with
  | nil => simp [sortRank]
  | cons a as ih => exact chain'_insertRank ih

/-- Along `rankLe`, scores are non-increasing. -/
lemma chain'_sortRank_sc (l : List Scored) :
    (sortRank l).Chain' (fun x y => y.sc ≤ x.sc) := by
  refine (chain'_sortRank l).imp ?_
  intro x y h
  unfold rankLe at h
  simp only [Bool.or_eq_true, decide_eq_true_eq, Bool.and_eq_true, beq_iff_eq] at h
  rcases h with h | ⟨he, _⟩
  · omega
  · omega

/-! ## The heap tuples carry their chunk's actual overlap score -/

lemma pushE_scores {top_k : Nat} {qtok : List Str} {st st2 : HeapSt} {ch : Chunk}
    (h : pushE top_k qtok st ch = .ok st2)
    (hb : ∀ s ∈ st.1, s.sc = overlap qtok s.ch.text) :
    ∀ s ∈ st2.1, s.sc = overlap qtok s.ch.text := by
  unfold pushE at h
  by_cases hlt : st.1.length < top_k
  · rw [if_pos hlt] at h
    cases h
    intro s hs
    rcases List.mem_cons.1 hs with h1 | h2
    · subst h1; rfl
    · exact hb s h2
  · rw [if_neg hlt] at h
    cases hm : heapMin st.1 with
    | none => rw [hm] at h; cases h
    | some m =>
      rw [hm] at h
      dsimp only at h
      by_cases hsc : m.sc < overlap qtok ch.text
      · rw [if_pos hsc] at h
        cases h
        intro s hs
        rcases List.mem_cons.1 hs with h1 | h2
        · subst h1; rfl
        · exact hb s (List.erase_subset m st.1 h2)
      · rw [if_neg hsc] at h
        cases h
        exact hb

lemma pushAll_scores {top_k : Nat} {qtok : List Str} {cs : List Chunk}
    {st st2 : HeapSt} (h : pushAll top_k qtok st cs = .ok st2)
    (hb : ∀ s ∈ st.1, s.sc = overlap qtok s.ch.text) :
    ∀ s ∈ st2.1, s.sc = overlap qtok s.ch.text := by
  induction cs generalizing st with
  | nil => cases h; exact hb
  | cons c cs ih =>
    unfold pushAll at h
    cases hp : pushE top_k qtok st c with
    | error e => rw [hp] at h; cases h
    | ok st1 =>
      rw [hp] at h
      exact ih h (pushE_scores hp hb)

lemma mainLoop_scores {env : Env} {top_k : Nat} {qtok : List Str}
    {fs : List FileD} {st st2 : HeapSt}
    (h : mainLoop env top_k qtok st fs = .ok st2)
    (hb : ∀ s ∈ st.1, s.sc = overlap qtok s.ch.text) :
    ∀ s ∈ st2.1, s.sc = overlap qtok s.ch.text := by
  induction fs generalizing st with
  | nil => cases h; exact hb
  | cons f fs ih =>
    unfold mainLoop at h
    cases hc : chunksOfFile env f with
    | none => rw [hc] at h; exact ih h hb
    | some cs =>
      rw [hc] at h
      dsimp only at h
      cases hp : pushAll top_k qtok st cs with
      | error e => rw [hp] at h; cases h
      | ok st1 =>
        rw [hp] at h
        exact ih h (pushAll_scores hp hb)

lemma fallbackLoop_scores {env : Env} {top_k : Nat} {qtok : List Str}
    {fs : List FileD} {st st2 : HeapSt}
    (h : fallbackLoop env top_k qtok st fs = .ok st2)
    (hb : ∀ s ∈ st.1, s.sc = overlap qtok s.ch.text) :
    ∀ s ∈ st2.1, s.sc = overlap qtok s.ch.text := by
  induction fs generalizing st with
  | nil => cases h; exact hb
  | cons f fs ih =>
    unfold fallbackLoop at h
    cases hc : chunksOfFile env f with
    | none => rw [hc] at h; exact ih h hb
    | some cs =>
      rw [hc] at h
      cases cs with
      | nil => exact ih h hb
      | cons c _ =>
        dsimp only at h
        cases hp : pushE top_k qtok st c with
        | error e => rw [hp] at h; cases h
        | ok st1 =>
          rw [hp] at h
          exact ih h (pushE_scores hp hb)

lemma sortRank_cons (a : Scored) (as : List Scored) :
    sortRank (a :: as) = insertRank a (sortRank as) :=
  rfl

lemma mem_insertRank {a b : Scored} {l : List Scored} (h : b ∈ insertRank a l) :
    b = a ∨ b ∈ l := by
  induction l with
  | nil =>
    have : b ∈ [a] := h
    exact Or.inl (by simpa using this)
  | cons c cs ih =>
    rw [insertRank_cons] at h
    by_cases hac : rankLe a c
    · rw [if_pos hac] at h
      rcases List.mem_cons.1 h with h1 | h2
      · exact Or.inl h1
      · exact Or.inr h2
    · rw [if_neg hac] at h
      rcases List.mem_cons.1 h with h1 | h2
      · exact Or.inr (h1 ▸ List.mem_cons_self c cs)
      · rcases ih h2 with h3 | h4
        · exact Or.inl h3
        · exact Or.inr (List.mem_cons_of_mem _ h4)

lemma mem_sortRank {b : Scored} {l : List Scored} (h : b ∈ sortRank l) : b ∈ l := by
  induction l with
  | nil => exact absurd h (by simp [sortRank])
  | cons a as ih =>
    rw [sortRank_cons] at h
    rcases mem_insertRank h with h1 | h2
    · exact h1 ▸ List.mem_cons_self a as
    · exact List.mem_cons_of_mem _ (ih h2)

/-- Transfer a chain along an implication that may use membership of both
endpoints. -/
lemma chain'_imp_mem {α : Type} {R S : α → α → Prop} {l : List α}
    (hmem : ∀ a ∈ l, ∀ b ∈ l, R a b → S a b) (h : l.Chain' R) : l.Chain' S := by
  induction l with
  | nil => exact List.chain'_nil
  | cons a as ih =>
    have h' := List.chain'_cons'.1 h
    refine List.chain'_cons'.2 ⟨?_, ?_⟩
    · intro y hy
      exact hmem a (List.mem_cons_self a as) y
        (List.mem_cons_of_mem _ (List.mem_of_mem_head? hy)) (h'.1 y hy)
    · exact ih (fun x hx y hy => hmem x (List.mem_cons_of_mem _ hx) y
        (List.mem_cons_of_mem _ hy)) h'.2

/-! ## Context budget lemmas -/

lemma collectParts_cons (ch : Chunk) (rest : List Chunk) (total : Nat) :
    collectParts (ch :: rest) total =
      if 8000 < total + (ctxPart ch).length then []
      else ctxPart ch :: collectParts rest (total + (ctxPart ch).length) :=
  rfl

/-- The accumulated length of the collected parts never exceeds the 8000
character budget (unless no part was collected at all). -/
lemma collectParts_budget (rest : List Chunk) (total : Nat) :
    total + sumLens (collectParts rest total) ≤ 8000 ∨ collectParts rest total = [] := by
  induction rest generalizing total with
  | nil => right; rfl
  | cons ch rest ih =>
    rw [collectParts_cons]
    by_cases hc : 8000 < total + (ctxPart ch).length
    · right; rw [if_pos hc]
    · rw [if_neg hc]
      left
      rcases ih (total + (ctxPart ch).length) with h1 | h2
      · simp only [sumLens, List.map_cons, List.sum_cons]
        simp only [sumLens] at h1
        omega
      · rw [h2]
        simp only [sumLens, List.map_cons, List.map_nil, List.sum_cons, List.sum_nil]
        omega

/-- Joined length: one separator between consecutive parts. -/
lemma joinNl_length (ps : List Str) (h : ps ≠ []) :
    (joinNl ps).length + 1 = sumLens ps + ps.length := by
  induction ps with
  | nil => cases h rfl
  | cons x xs ih =>
    cases xs with
    | nil => simp [joinNl, sumLens]
    | cons y ys =>
      have hx : joinNl (x :: y :: ys) = x ++ ['\n'] ++ joinNl (y :: ys) := rfl
      have ih2 := ih (by simp)
      rw [hx]
      simp only [List.length_append, List.length_cons, List.length_nil, sumLens,
        List.map_cons, List.sum_cons] at ih2 ⊢
      omega

/-- The collected parts are the renderings of an initial segment of the
ranked chunk list. -/
lemma collectParts_take (rest : List Chunk) (total : Nat) :
    ∃ n, collectParts rest total = (rest.take n).map ctxPart := by
  induction rest generalizing total with
  | nil => exact ⟨0, rfl⟩
  | cons ch rest ih =>
    rw [collectParts_cons]
    by_cases hc : 8000 < total + (ctxPart ch).length
    · exact ⟨0, by rw [if_pos hc]; simp⟩
    · rcases ih (total + (ctxPart ch).length) with ⟨n, hn⟩
      exact ⟨n + 1, by rw [if_neg hc]; simp [hn]⟩

/-! ## Reader chunks have nonempty text -/

lemma mem_joinWith_of_mem {sep : Str} {block : List Str} {l : Str} {c : Char}
    (hl : l ∈ block) (hc : c ∈ l) : c ∈ joinWith sep block := by
  induction block with
  | nil => cases hl
  | cons x xs ih =>
    cases xs with
    | nil =>
      have : l = x := by simpa using hl
      subst this
      simpa [joinWith] using hc
    | cons y ys =>
      have hx : joinWith sep (x :: y :: ys) = x ++ sep ++ joinWith sep (y :: ys) := rfl
      rw [hx]
      rcases List.mem_cons.1 hl with h1 | h2
      · subst h1; simp [hc]
      · simp [ih h2]

lemma mkSheetChunk_text_ne_nil {fid name : Str} {idx : Nat} {block : List Str}
    (hne : block ≠ [])
    (hinv : ∀ l ∈ block, ∃ c ∈ l, ¬pyIsSpace c) :
    (mkSheetChunk fid name idx block).text ≠ [] := by
  cases block with
  | nil => cases hne rfl
  | cons x xs =>
    rcases hinv x (by simp) with ⟨c, hc, hs⟩
    exact norm_ne_nil_of_nonspace (mem_joinWith_of_mem (by simp) hc) hs

lemma sheetLoop_cons (fid name : Str) (block : List Str) (idx : Nat)
    (r : List Str) (rest : List (List Str)) :
    sheetLoop fid name block idx (r :: rest) =
      (let line := norm (joinWith " | ".data r)
       let block2 := if line.isEmpty then block else block ++ [line]
       if 20 ≤ block2.length then
         mkSheetChunk fid name idx block2 :: sheetLoop fid name [] (idx + 1) rest
       else sheetLoop fid name block2 idx rest) :=
  rfl

lemma sheetLoop_text_ne_nil (fid name : Str) (rows : List (List Str)) :
    ∀ (block : List Str) (idx : Nat),
      (∀ l ∈ block, ∃ c ∈ l, ¬pyIsSpace c) →
      ∀ ch ∈ sheetLoop fid name block idx rows, ch.text ≠ [] := by
  induction rows with
  | nil =>
    intro block idx hinv ch hch
    unfold sheetLoop at hch
    by_cases hb : block.isEmpty
    · rw [if_pos hb] at hch; cases hch
    · rw [if_neg hb] at hch
      have : ch = mkSheetChunk fid name idx block := by simpa using hch
      subst this
      exact mkSheetChunk_text_ne_nil (by simpa using hb) hinv
  | cons r rest ih =>
    intro block idx hinv ch hch
    rw [sheetLoop_cons] at hch
    dsimp only at hch
    have hinv2 : ∀ l ∈ (if (norm (joinWith " | ".data r)).isEmpty then block
        else block ++ [norm (joinWith " | ".data r)]), ∃ c ∈ l, ¬pyIsSpace c := by
      intro l hl
      by_cases hle : (norm (joinWith " | ".data r)).isEmpty
      · rw [if_pos hle] at hl; exact hinv l hl
      · rw [if_neg hle] at hl
        rcases List.mem_append.1 hl with h1 | h2
        · exact hinv l h1
        · have : l = norm (joinWith " | ".data r) := by simpa using h2
          subst this
          exact norm_has_nonspace_of_ne_nil (by simpa using hle)
    by_cases h20 : 20 ≤ (if (norm (joinWith " | ".data r)).isEmpty then block
        else block ++ [norm (joinWith " | ".data r)]).length
    · rw [if_pos h20] at hch
      rcases List.mem_cons.1 hch with h1 | h2
      · subst h1
        refine mkSheetChunk_text_ne_nil ?_ hinv2
        intro he
        rw [he] at h20
        simp at h20
      · exact ih [] (idx + 1) (by intro l hl; cases hl) ch h2
    · rw [if_neg h20] at hch
      exact ih _ idx hinv2 ch hch

lemma pdfLoop_text_ne_nil (fid name : Str) (pages : List Str) :
    ∀ (n : Nat), ∀ ch ∈ pdfLoop fid name n pages, ch.text ≠ [] := by
  induction pages with
  | nil => intro n ch hch; cases hch
  | cons p rest ih =>
    intro n ch hch
    unfold pdfLoop at hch
    by_cases hp : (norm p).isEmpty
    · rw [if_pos hp] at hch
      exact ih (n + 1) ch hch
    · rw [if_neg hp] at hch
      rcases List.mem_cons.1 hch with h1 | h2
      · subst h1; simpa using hp
      · exact ih (n + 1) ch h2

lemma gdocLoop_text_ne_nil (fid name : Str) (content : List GContent) :
    ∀ (sect : Str), ∀ ch ∈ gdocLoop fid name sect content, ch.text ≠ [] := by
  induction content with
  | nil => intro sect ch hch; cases hch
  | cons item rest ih =>
    intro sect ch hch
    cases item with
    | other => exact ih sect ch hch
    | para p =>
      unfold gdocLoop at hch
      dsimp only at hch
      by_cases he : (pyStrip (joinedText p.elements)).isEmpty
      · rw [if_pos he] at hch
        exact ih sect ch hch
      · rw [if_neg he] at hch
        by_cases hh : "HEADING_".data.isPrefixOf p.namedStyleType
        · rw [if_pos hh] at hch
          exact ih _ ch hch
        · rw [if_neg hh] at hch
          rcases List.mem_cons.1 hch with h1 | h2
          · subst h1
            dsimp only
            by_cases hq : (pyStrip (joinedText p.elements)).getLast? = some '?'
            · rw [if_pos hq]
              refine norm_ne_nil_of_nonspace (c := 'Q') ?_ (by decide)
              simp
            · rw [if_neg hq]
              rcases pyStrip_has_nonspace (by simpa using he) with ⟨c, hc, hs⟩
              exact norm_ne_nil_of_nonspace hc hs
          · exact ih sect ch h2

/-- On a normalized string, `norm` is the identity. -/
lemma norm_eq_self {u : Str} (h : NormedStr u) : norm u = u := by
  obtain ⟨hsp, hch, hh, hl⟩ := h
  rw [norm_def]
  have hmap : u.map (fun c => if c = nbspChar then ' ' else c) = u := by
    rw [List.map_congr_left, List.map_id]
    intro c hc
    have : c ≠ nbspChar := by
      intro he
      have : c = ' ' := hsp c hc (by rw [he]; decide)
      rw [this] at he
      exact absurd he (by decide)
    simp [this]
  rw [hmap, collapseWsAux_eq_self hsp hch, pyStrip_eq_self hh hl]

/-! ## `retrieve_top_chunks`: at most `top_k` results, sorted by score -/

lemma retrieveCore_ok {env : Env} {qtok : List Str} {maxf k : Nat} {files : List FileD}
    {ctx : Str} {top : List Chunk}
    (h : retrieveCore env qtok maxf k files = .ok (ctx, top)) :
    top.length ≤ k ∧
    top.Chain' (fun a b => overlap qtok b.text ≤ overlap qtok a.text) := by
  unfold retrieveCore at h
  cases hpre : prefilterChosen qtok maxf files with
  | error e => rw [hpre] at h; cases h
  | ok chosen =>
    rw [hpre] at h
    dsimp only at h
    cases hmain : mainLoop env k qtok ([], 0) chosen with
    | error e => rw [hmain] at h; cases h
    | ok st =>
      rw [hmain] at h
      dsimp only at h
      have hstlen : st.1.length ≤ k := mainLoop_length hmain (by simp)
      have hstsc : ∀ s ∈ st.1, s.sc = overlap qtok s.ch.text :=
        mainLoop_scores hmain (by intro s hs; cases hs)
      cases hfb : (if st.1.isEmpty then fallbackLoop env k qtok st chosen else .ok st) with
      | error e => rw [hfb] at h; cases h
      | ok st2 =>
        rw [hfb] at h
        dsimp only at h
        have hst2len : st2.1.length ≤ k := by
          by_cases hem : st.1.isEmpty
          · rw [if_pos hem] at hfb
            exact fallbackLoop_length hfb hstlen
          · rw [if_neg hem] at hfb
            cases hfb
            exact hstlen
        have hst2sc : ∀ s ∈ st2.1, s.sc = overlap qtok s.ch.text := by
          by_cases hem : st.1.isEmpty
          · rw [if_pos hem] at hfb
            exact fallbackLoop_scores hfb hstsc
          · rw [if_neg hem] at hfb
            cases hfb
            exact hstsc
        by_cases hem2 : st2.1.isEmpty
        · rw [if_pos hem2] at h
          simp only [Except.ok.injEq, Prod.mk.injEq] at h
          obtain ⟨h1, h2⟩ := h
          subst h2
          exact ⟨by simp, List.chain'_nil⟩
        · rw [if_neg hem2] at h
          simp only [Except.ok.injEq, Prod.mk.injEq] at h
          obtain ⟨h1, h2⟩ := h
          subst h2
          have hpin : ∀ s ∈ sortRank st2.1, s.sc = overlap qtok s.ch.text :=
            fun s hs => hst2sc s (mem_sortRank hs)
          have hchain : (sortRank st2.1).Chain'
              (fun a b => overlap qtok b.ch.text ≤ overlap qtok a.ch.text) := by
            refine chain'_imp_mem ?_ (chain'_sortRank_sc st2.1)
            intro a ha b hb hr
            rw [← hpin a ha, ← hpin b hb]
            exact hr
          refine ⟨?_, ?_⟩
          · rw [List.length_map, length_sortRank]
            exact hst2len
          · exact (List.chain'_map Scored.ch).2 hchain

/-! # Claim theorems -/

/-- C1 (counterexample): for the query "What is the capital of France?"
and a collection whose only chunk ("zebra stripes say hello") has zero
lexical overlap with it, ranking does NOT return an empty list — it
returns that chunk with score 0 — and the end-to-end reply is the model
answer with a citation appended, not the fixed refusal sentence. -/
theorem C1_counterexample :
    overlap (toks c1q) c1chunk.text = 0 ∧
    retrieve_top_chunks c1env c1q 200 3 = .ok (c1ctx, [c1chunk]) ∧
    answer c1env c1gen c1q ≠ .ok refusal := by
  refine ⟨by decide, by decide, by decide⟩

/-- C1 (amended): with a nonempty chunk collection that has no lexical
overlap with the query, ranking does not return an empty list — it returns
the chunks with overlap score 0, as the concrete conjunct shows for the
scenario collection; and `answer` replies with exactly the fixed refusal
sentence, with no citation block, whenever any of the code's refusal
conditions holds: retrieval yielded no chunks, the built context is empty
(e.g. an oversized first chunk), the model call raises, or the model's
reply normalizes to empty or begins (case-insensitively) with
"i cannot answer". -/
theorem C1_theorem (env : Env) (gen : Str → Except Unit Str) (q ctx : Str)
    (chunks : List Chunk)
    (h : retrieve_top_chunks env q 200 3 = .ok (ctx, chunks))
    (hcause : chunks = [] ∨ ctx = [] ∨ gen (answerPrompt ctx q) = .error () ∨
      ∃ raw, gen (answerPrompt ctx q) = .ok raw ∧ (norm raw = [] ∨
        "i cannot answer".data.isPrefixOf ((norm raw).map Char.toLower))) :
    answer env gen q = .ok refusal ∧
    retrieve_top_chunks c1env c1q 200 3 = .ok (c1ctx, [c1chunk]) := by
  refine ⟨?_, by decide⟩
  unfold answer
  rw [h]
  dsimp only
  by_cases hem : (ctx.isEmpty || chunks.isEmpty) = true
  · rw [if_pos hem]
  · rw [if_neg hem]
    simp only [Bool.or_eq_true, List.isEmpty_iff] at hem
    push_neg at hem
    rcases hcause with h1 | h2 | h3 | ⟨raw, hraw, href⟩
    · exact absurd h1 hem.2
    · exact absurd h2 hem.1
    · rw [h3]
    · rw [hraw]
      dsimp only
      have : (List.isEmpty (norm raw) ||
          "i cannot answer".data.isPrefixOf ((norm raw).map Char.toLower)) = true := by
        rcases href with h4 | h5
        · simp [h4]
        · simp [h5]
      rw [if_pos this]

theorem C1_witness :
    answer emptyEnvA genNone "hi".data = .ok refusal ∧
    retrieve_top_chunks c1env c1q 200 3 = .ok (c1ctx, [c1chunk]) :=
  C1_theorem emptyEnvA genNone "hi".data [] [] (by decide) (Or.inl rfl)

/-- C2 (counterexample): with `top_k = 3`, two above-zero-scoring chunks
from the same source (`DocA`) are BOTH returned, so the ranked list is not
limited to one chunk per distinct `source_name`. -/
theorem C2_counterexample :
    retrieve_top_chunks c2env "alpha".data 200 3 = .ok (c2ctx, [c2chunkA, c2chunkB]) ∧
    c2chunkA.file_name = c2chunkB.file_name ∧ c2chunkA ≠ c2chunkB := by
  refine ⟨by decide, by decide, by decide⟩

/-- C2 (amended): the ranker performs no per-source deduplication (several
chunks of one source can all be returned, as the counterexample shows);
the `top_k = 1` part of the claim does hold: with two above-threshold
chunks from one source and `top_k = 1`, exactly the higher-scoring one is
returned, whichever order the candidates arrive in. -/
theorem C2_theorem :
    retrieve_top_chunks c2benv "alpha beta".data 200 1 = .ok (c2hiCtx, [c2hiChunk]) ∧
    retrieve_top_chunks c2cenv "alpha beta".data 200 1 = .ok (c2hiCtx, [c2hiChunk]) := by
  refine ⟨by decide, by decide⟩

/-- C3 (counterexample): two back-to-back `retrieve_top_chunks` calls
perform two document-store listings, not one — there is no cache at all,
so the "call-count is 1 across two calls within the TTL window" claim
fails. -/
theorem C3_counterexample :
    listing_calls_two c3env "hello".data = 2 ∧
    ¬listing_calls_two c3env "hello".data = 1 := by
  refine ⟨by decide, by decide⟩

/-- C3 (amended): `retrieve_top_chunks` performs exactly one full
document-store listing on every call, unconditionally — so two calls
always perform two listings regardless of elapsed time (no time-to-live
cache exists in the code). -/
theorem C3_theorem (env : Env) (q : Str) (max_files top_k : Nat) :
    (retrieve_top_chunksT env q max_files top_k).2 = 1 ∧
    listing_calls_two env q = 2 := by
  constructor
  · unfold retrieve_top_chunksT list_filesT
    dsimp only
    split <;> rfl
  · unfold listing_calls_two retrieve_top_chunksT list_filesT
    dsimp only
    split <;> rfl

/-- C4 (counterexample): the citation for a chunk whose text is
"zz xx yy vv" is exactly `(Source: [Doc](http://x), on page 3)`; it
contains no prefix of the chunk text (not even its first character), so
no "first ~10 words" preview is present. -/
theorem C4_counterexample :
    citation_for c4ex = c4cite ∧
    c4ex.text.head? = some 'z' ∧
    'z' ∉ citation_for c4ex ∧
    ¬("zz".data <:+: citation_for c4ex) := by
  refine ⟨by decide, by decide, by decide, by decide⟩

/-- C4 (amended): `citation_for` is deterministic (identical chunk input
yields the identical citation string) and the citation contains the
chunk's locator-specific phrase; no text preview is included. -/
theorem C4_theorem (ch ch2 : Chunk) (hdet : ch = ch2) :
    citation_for ch = citation_for ch2 ∧
    ∃ pre post, citation_for ch = pre ++ locator_phrase ch ++ post := by
  subst hdet
  refine ⟨rfl, ?_⟩
  unfold citation_for locator_phrase
  by_cases h1 : ch.mime = "pdf".data
  · rw [if_pos h1, if_pos h1]
    exact ⟨"(Source: [".data ++ ch.file_name ++ "](".data ++ ch.link ++ "), ".data,
      ")".data, rfl⟩
  · rw [if_neg h1, if_neg h1]
    by_cases h2 : ch.mime = "gdoc".data
    · rw [if_pos h2, if_pos h2]
      exact ⟨"(Source: [".data ++ ch.file_name ++ "](".data ++ ch.link ++ "), ".data,
        ")".data, rfl⟩
    · rw [if_neg h2, if_neg h2]
      by_cases h3 : ch.mime = "gsheet".data
      · rw [if_pos h3, if_pos h3]
        exact ⟨"(Source: [".data ++ ch.file_name ++ "](".data ++ ch.link ++ "), ".data,
          ")".data, rfl⟩
      · rw [if_neg h3, if_neg h3]
        refine ⟨"(Source: [".data ++ ch.file_name ++ "](".data ++ ch.link ++ ")".data,
          ")".data, ?_⟩
        simp

theorem C4_witness :
    citation_for c4w = citation_for c4w ∧
    ∃ pre post, citation_for c4w = pre ++ locator_phrase c4w ++ post :=
  C4_theorem c4w c4w rfl

/-- C5 (counterexample): two ranked chunks whose parts are each exactly
4000 characters both pass the running-total check (4000 + 4000 = 8000 is
within budget), but the parts are joined with a `"\n"` separator, so the
built context string is 8001 characters — exceeding the 8000-character
budget the claim asserts is never exceeded. -/
theorem C5_counterexample :
    (buildContext [c5chunk, c5chunk]).length = 8001 ∧
    8000 < (buildContext [c5chunk, c5chunk]).length := by
  have hpart : (ctxPart c5chunk).length = 4000 := by
    show ("Source: ".data ++ ([] : Str) ++ "\nContent: ".data ++
      List.replicate 3981 'z' ++ ['\n']).length = 4000
    rw [List.length_append, List.length_append, List.length_append, List.length_append,
      List.length_replicate]
    rfl
  have hparts : collectParts [c5chunk, c5chunk] 0 = [ctxPart c5chunk, ctxPart c5chunk] := by
    rw [collectParts_cons, collectParts_cons, hpart, if_neg (by omega), if_neg (by omega)]
    rfl
  have hjoin : buildContext [c5chunk, c5chunk] =
      ctxPart c5chunk ++ ['\n'] ++ ctxPart c5chunk := by
    unfold buildContext
    rw [hparts]
    rfl
  have hlen : (buildContext [c5chunk, c5chunk]).length = 8001 := by
    rw [hjoin, List.length_append, List.length_append, hpart]
    rfl
  exact ⟨hlen, by rw [hlen]; omega⟩

/-- C5 (amended): the context builder concatenates the parts
`"Source: <name>\nContent: <text>\n"` of an initial segment of the ranked
chunks, stopping (and dropping all remaining chunks) as soon as the
accumulated parts total would exceed 8000 characters; the accumulated
parts total therefore never exceeds 8000, and the built context — the
parts joined with `"\n"` — never exceeds 8000 plus one separator per
additional part (it can exceed the 8000 budget itself only by those
separators, as the counterexample shows). -/
theorem C5_theorem (top : List Chunk) :
    (∃ n, collectParts top 0 = (top.take n).map ctxPart) ∧
    sumLens (collectParts top 0) ≤ 8000 ∧
    (buildContext top).length + 1 ≤ 8000 + (collectParts top 0).length := by
  refine ⟨collectParts_take top 0, ?_, ?_⟩
  · rcases collectParts_budget top 0 with h | h
    · omega
    · rw [h]
      simp [sumLens]
  · by_cases hp : collectParts top 0 = []
    · rw [buildContext, hp]
      simp [joinNl]
    · have hj := joinNl_length _ hp
      have hb : sumLens (collectParts top 0) ≤ 8000 := by
        rcases collectParts_budget top 0 with h | h
        · omega
        · exact absurd h hp
      rw [buildContext]
      omega

/-- C6 (confirmed): whenever `retrieve_top_chunks` returns a result list
(for any query, environment, `max_files` and `top_k`), that list has at
most `top_k` chunks and is sorted descending by the chunks' actual
relevance scores: along the returned list, `overlap (toks q) chunk.text`
is non-increasing (highest relevance first). -/
theorem C6_theorem (env : Env) (q : Str) (max_files top_k : Nat) (ctx : Str)
    (top : List Chunk)
    (h : retrieve_top_chunks env q max_files top_k = .ok (ctx, top)) :
    top.length ≤ top_k ∧
    top.Chain' (fun a b => overlap (toks q) b.text ≤ overlap (toks q) a.text) := by
  unfold retrieve_top_chunks retrieve_top_chunksT list_filesT at h
  dsimp only at h
  by_cases hem : env.files.isEmpty
  · rw [if_pos hem] at h
    dsimp only at h
    simp only [Except.ok.injEq, Prod.mk.injEq] at h
    obtain ⟨h1, h2⟩ := h
    subst h2
    exact ⟨by simp, List.chain'_nil⟩
  · rw [if_neg hem] at h
    dsimp only at h
    exact retrieveCore_ok h

theorem C6_witness :
    ([] : List Chunk).length ≤ 3 ∧
    ([] : List Chunk).Chain'
      (fun a b => overlap (toks "q".data) b.text ≤ overlap (toks "q".data) a.text) :=
  C6_theorem emptyEnvB "q".data 200 3 [] [] (by decide)

/-- C7 (confirmed): with an empty document collection the chunk list is
empty and `answer` returns (without raising) the fixed sentence the code
uses for the no-usable-documents case — the refusal string "I cannot
answer this question as the information is not in the provided
documents." (the code reuses the refusal sentence for this reply). -/
theorem C7_theorem (env : Env) (gen : Str → Except Unit Str) (q : Str)
    (h : env.files = []) :
    retrieve_top_chunks env q 200 3 = .ok ([], []) ∧
    answer env gen q = .ok refusal := by
  have h1 : retrieve_top_chunks env q 200 3 = .ok ([], []) := by
    unfold retrieve_top_chunks retrieve_top_chunksT list_filesT
    dsimp only
    rw [h]
    rfl
  refine ⟨h1, ?_⟩
  unfold answer
  rw [h1]
  simp

theorem C7_witness :
    retrieve_top_chunks emptyEnvC "hello".data 200 3 = .ok ([], []) ∧
    answer emptyEnvC genNone "hello".data = .ok refusal :=
  C7_theorem emptyEnvC genNone "hello".data rfl

/-- C8 (confirmed): whatever payload the external APIs return, every chunk
the three readers yield has nonempty text after normalization — `norm`
preserves at least one non-whitespace character of every guarded,
nonempty source text. -/
theorem C8_theorem (fid name : Str) (content : List GContent) (pages : List Str)
    (rows : List (List Str)) :
    (∀ ch ∈ iter_gdoc_chunks fid name content, ch.text ≠ []) ∧
    (∀ ch ∈ iter_pdf_chunks fid name pages, ch.text ≠ []) ∧
    (∀ ch ∈ iter_sheet_chunks fid name rows, ch.text ≠ []) :=
  ⟨gdocLoop_text_ne_nil fid name content "General".data,
   pdfLoop_text_ne_nil fid name pages 1,
   sheetLoop_text_ne_nil fid name rows [] 1 (by intro l hl; cases hl)⟩

theorem C8_witness :
    c8gChunk.text ≠ [] ∧ c8pChunk.text ≠ [] ∧ c8sChunk.text ≠ [] := by
  have hg := C8_theorem "g1".data "G".data c8gContent [] []
  have hp := C8_theorem "p1".data "P".data [] ["Page one text".data] []
  have hs := C8_theorem "s1".data "S".data [] [] [["alpha".data, "beta".data]]
  exact ⟨hg.1 c8gChunk (by decide), hp.2.1 c8pChunk (by decide),
    hs.2.2 c8sChunk (by decide)⟩

/-- C9 (confirmed): the text normalizer `norm` is idempotent. -/
theorem C9_theorem (t : Str) : norm (norm t) = norm t :=
  norm_eq_self (normedStr_norm t)

/-- C10 (confirmed): when the mention text is empty after stripping the
`<@...>` markup and surrounding whitespace, `handle_mention` performs no
work: it neither invokes the answer pipeline nor posts any message. -/
theorem C10_theorem (env : Env) (gen : Str → Except Unit Str)
    (channel_id raw_text : Str)
    (h : pyStrip (removeMentions raw_text) = []) :
    handle_mention env gen channel_id raw_text = [] := by
  unfold handle_mention
  rw [h]
  rfl

theorem C10_witness :
    handle_mention emptyEnvD genNone "C0".data c10raw = [] :=
  C10_theorem emptyEnvD genNone "C0".data c10raw (by decide)
